import Mathlib

/-!
Shallow embedding of the stream-resolution pipeline of the `stremsrc` addon
(file `extractor.ts`, unified VidSrc + 4KHDHub module).

Modelling conventions:
* Asynchronous network calls are modelled by passing their settled outcomes
  as explicit arguments (`Except String _` for a promise that either
  fulfilled or rejected, `Option _` for a fetch whose body may be
  unavailable).  `Promise.allSettled` therefore becomes a total function of
  the two settled outcomes.
* The persistent lowdb cache (`db.data.streams : CacheEntry[]`) is modelled
  as an explicit list of cache entries threaded through `getStreamContent`,
  which returns the response list together with the updated store.
* `Date.now()` is an explicit `now : Int` argument (epoch milliseconds).
* JavaScript numbers used for fuzzy-match scores are modelled as `ℚ`
  (the scores are ratios of small integers, exactly representable).
* String routines (`toLowerCase`, `replace`, `split`, `trim`, `includes`)
  are re-implemented character by character so that every definition is
  executable by the kernel; JS semantics (e.g. `"".split(' ') = [""]`) are
  preserved.
-/

/-- Output record of the pipeline (interface `APIResponse` in the source).
The opaque `hlsData` field (external HLS-parser result) is omitted: no claim
depends on it. -/
structure APIResponse where
  name : String
  title : String
  stream : Option String := none
  url : Option String := none
  image : Option String := none
  mediaId : Option String := none
  referer : Option String := none
  deriving Repr, DecidableEq

/-- Cache record persisted in `db.json` (interface `CacheEntry` in the source). -/
structure CacheEntry where
  id : String
  data : List APIResponse
  expiry : Int
  deriving Repr, DecidableEq

/-- `config.cacheTTL = 3600 * 1000` (one hour in milliseconds). -/
def cacheTTL : Int := 3600 * 1000

/-- Merge step of `scrapeAllContent`: the two scrapers run under
`Promise.allSettled`; each settled outcome contributes its streams when
fulfilled and nothing when rejected, VidSrc first, then 4KHDHub. -/
def scrapeAllContent (vidSrcResult khdHubResult : Except String (List APIResponse)) :
    List APIResponse :=
  (match vidSrcResult with
   | Except.ok v => v
   | Except.error _ => []) ++
  (match khdHubResult with
   | Except.ok v => v
   | Except.error _ => [])

/-- Cache key construction in `getStreamContent`: the template literal
`` `${type}:${id}` ``. -/
def cacheKey (type id : String) : String := type ++ ":" ++ id

/-- Cache read step of `getStreamContent`:
`db.data.streams.find(item => item.id === cacheKey)`. -/
def cacheLookup (streams : List CacheEntry) (key : String) : Option CacheEntry :=
  streams.find? (fun item => item.id == key)

/-- Cache write step of `getStreamContent`:
`findIndex` on the key, then in-place replacement if found (`itemIndex > -1`)
and `push` otherwise. -/
def cachePut (streams : List CacheEntry) (newItem : CacheEntry) : List CacheEntry :=
  match streams.findIdx? (fun item => item.id == newItem.id) with
  | some i => streams.set i newItem
  | none => streams ++ [newItem]

/-- Combined read guard of `getStreamContent`: the stored payload is served
only when an entry for the key exists and `cachedItem.expiry > now`. -/
def cacheGet (streams : List CacheEntry) (key : String) (now : Int) :
    Option (List APIResponse) :=
  match cacheLookup streams key with
  | some item => if item.expiry > now then some item.data else none
  | none => none

/-- Cache-miss path of `getStreamContent`: scrape all sources, and when the
result list is non-empty (`apiResponse.length > 0`) write it to the store
with expiry `now + config.cacheTTL`. -/
def resolveAndCache (key : String) (now : Int)
    (vidSrcResult khdHubResult : Except String (List APIResponse))
    (streams : List CacheEntry) : List APIResponse × List CacheEntry :=
  let apiResponse := scrapeAllContent vidSrcResult khdHubResult
  if apiResponse.length > 0 then
    (apiResponse, cachePut streams { id := key, data := apiResponse, expiry := now + cacheTTL })
  else
    (apiResponse, streams)

/-- Orchestrator entry point `getStreamContent(id, type)`.  The settled
outcomes of the two provider scrapers and the current store/time are explicit
arguments; the function returns the response list and the updated store. -/
def getStreamContent (id type : String) (now : Int)
    (vidSrcResult khdHubResult : Except String (List APIResponse))
    (streams : List CacheEntry) : List APIResponse × List CacheEntry :=
  let key := cacheKey type id
  match cacheLookup streams key with
  | some cachedItem =>
    if cachedItem.expiry > now then (cachedItem.data, streams)
    else resolveAndCache key now vidSrcResult khdHubResult streams
  | none => resolveAndCache key now vidSrcResult khdHubResult streams

/-! 4KHDHub fuzzy matcher: string normalization. -/

/-- Characters matched by the JS regex class `\s` (ASCII part). -/
def isJsSpace (c : Char) : Bool :=
  c == ' ' || c == '\t' || c == '\n' || c == '\r' || c == '\x0b' || c == '\x0c'

/-- JS `replace(/&/g, 'and')` at character level. -/
def replaceAmp (cs : List Char) : List Char :=
  cs.flatMap (fun c => if c = '&' then ['a', 'n', 'd'] else [c])

/-- JS `replace(/[^a-z0-9\s]/g, ' ')` at character level. -/
def stripChar (c : Char) : Char :=
  if ('a' ≤ c ∧ c ≤ 'z') ∨ ('0' ≤ c ∧ c ≤ '9') ∨ isJsSpace c = true then c else ' '

/-- JS `replace(/\s+/g, ' ')`: every maximal run of whitespace becomes one
space.  The boolean argument records whether the previous character was part
of a whitespace run. -/
def collapseWsAux : Bool → List Char → List Char
  | _, [] => []
  | prevSpace, c :: cs =>
    if isJsSpace c then
      if prevSpace then collapseWsAux true cs
      else ' ' :: collapseWsAux true cs
    else c :: collapseWsAux false cs

/-- JS `String.prototype.trim()` at character level. -/
def trimJs (cs : List Char) : List Char :=
  (((cs.dropWhile isJsSpace).reverse).dropWhile isJsSpace).reverse

/-- `khd_normalizeTitle`: lower-case, `&`→`and`, strip characters outside
`[a-z0-9\s]`, collapse whitespace, trim. -/
def khd_normalizeTitle (title : String) : String :=
  String.mk (trimJs (collapseWsAux false
    (List.map stripChar (replaceAmp (List.map Char.toLower title.data)))))

/-- JS `split(' ')` at character level (note `"".split(' ') = [""]`). -/
def splitOnSpaceAux (acc : List Char) : List Char → List (List Char)
  | [] => [acc.reverse]
  | c :: cs =>
    if c = ' ' then acc.reverse :: splitOnSpaceAux [] cs
    else splitOnSpaceAux (c :: acc) cs

/-- Word list of a normalized title, as produced by `s.split(' ')`. -/
def jsSplitSpace (s : String) : List String :=
  (splitOnSpaceAux [] s.data).map String.mk

/-- `khd_calculateSimilarity`: Jaccard index of the two normalized word sets.
JS `Set`s are modelled by `List.dedup` (only the size and membership of the
sets are used, which are independent of which duplicate is kept).  The
division is guarded by the `union.size === 0` check exactly as in the
source. -/
def khd_calculateSimilarity (str1 str2 : String) : ℚ :=
  let s1 := khd_normalizeTitle str1
  let s2 := khd_normalizeTitle str2
  let words1 := (jsSplitSpace s1).dedup
  let words2 := (jsSplitSpace s2).dedup
  let intersection := words1.filter (fun w => words2.contains w)
  let union := (words1 ++ words2).dedup
  if union.length = 0 then 0 else (intersection.length : ℚ) / (union.length : ℚ)

/-! 4KHDHub fuzzy matcher: year stripping and scoring. -/

/-- Decimal digit test for the regex `\d`. -/
def isDigitChar (c : Char) : Bool := '0' ≤ c ∧ c ≤ '9'

/-- Matches the core `\((19|20)\d{2}\)` of the year regex at the head of the
list, returning the remainder after the closing parenthesis. -/
def yearParenMatch : List Char → Option (List Char)
  | '(' :: d1 :: d2 :: d3 :: d4 :: ')' :: rest =>
    if ((d1 = '1' ∧ d2 = '9') ∨ (d1 = '2' ∧ d2 = '0')) ∧
        isDigitChar d3 = true ∧ isDigitChar d4 = true then some rest
    else none
  | _ => none

/-- Attempts `\s*\((19|20)\d{2}\)\s*` at the current position (greedy
whitespace on both sides). -/
def stripYearTry (cs : List Char) : Option (List Char) :=
  match yearParenMatch (cs.dropWhile isJsSpace) with
  | some rest => some (rest.dropWhile isJsSpace)
  | none => none

/-- Leftmost-match scan for `replace(/\s*\((19|20)\d{2}\)\s*/, ' ')`: the
first position where the pattern matches is replaced by a single space and
the scan stops (the regex is not global). -/
def stripYearGo : List Char → List Char
  | [] => []
  | c :: cs =>
    match stripYearTry (c :: cs) with
    | some rest => ' ' :: rest
    | none => c :: stripYearGo cs

/-- The composite `x.replace(/\s*\((19|20)\d{2}\)\s*/, ' ').trim()` used on
both the query and each candidate title in `khd_findBestMatch`. -/
def khd_stripYearAndTrim (s : String) : String :=
  String.mk (trimJs (stripYearGo s.data))

/-- Search result parsed from the 4KHDHub results page
(`{ title, url, year }` in `khd_searchContent`).  The year comes from the
regex `(19|20)\d{2}`, hence is absent (`null`) or a nonzero integer; JS
truthiness of the year therefore coincides with presence. -/
structure SearchResult where
  title : String
  url : String
  year : Option Int
  deriving Repr, DecidableEq

/-- A search result together with its adjusted score
(`{ ...result, score }` in `khd_findBestMatch`). -/
structure ScoredResult where
  title : String
  url : String
  year : Option Int
  score : ℚ
  deriving Repr, DecidableEq

/-- Per-candidate scoring step of `khd_findBestMatch`: Jaccard similarity of
the year-stripped titles scaled to 0–100, then `+30` on exact year match and
`-50` on mismatch when both years are known.  `queryWithoutYear` is the
already-stripped query (computed once in the source); `queryYear` is the
parsed `tmdbYear` (`parseInt` of a four-digit year string, modelled as
`Option Int`). -/
def khd_scoreResult (queryWithoutYear : String) (queryYear : Option Int)
    (result : SearchResult) : ScoredResult :=
  let resultWithoutYear := khd_stripYearAndTrim result.title
  let base := khd_calculateSimilarity resultWithoutYear queryWithoutYear * 100
  let score :=
    match queryYear, result.year with
    | some qy, some ry => if qy = ry then base + 30 else base - 50
    | _, _ => base
  { title := result.title, url := result.url, year := result.year, score := score }

/-- One insertion step of the stable descending sort: the inserted element
(earlier in the original list) is placed before every element whose score
does not exceed it. -/
def insertDesc (x : ScoredResult) : List ScoredResult → List ScoredResult
  | [] => [x]
  | y :: ys => if y.score ≤ x.score then x :: y :: ys else y :: insertDesc x ys

/-- `scoredResults.sort((a, b) => b.score - a.score)`: the ECMAScript stable
sort by descending score, modelled as a stable insertion sort (equal scores
keep their original relative order). -/
def sortByScoreDesc : List ScoredResult → List ScoredResult
  | [] => []
  | x :: xs => insertDesc x (sortByScoreDesc xs)

/-- `khd_findBestMatch(results, query, tmdbYear)`: score every candidate,
sort descending, take the first element (`scoredResults[0]`), and accept it
only when its score strictly exceeds the threshold 40. -/
def khd_findBestMatch (results : List SearchResult) (query : String)
    (tmdbYear : Option Int) : Option ScoredResult :=
  let queryYear := tmdbYear
  let queryWithoutYear := khd_stripYearAndTrim query
  let scoredResults := results.map (khd_scoreResult queryWithoutYear queryYear)
  match (sortByScoreDesc scoredResults).head? with
  | some bestResult => if bestResult.score > 40 then some bestResult else none
  | none => none

/-- Loop body of the query loop in `khd_getStreamsInternal`: when the search
returned results, run `khd_findBestMatch` and keep the new match only when
`!bestMatch || match.score > bestMatch.score` (strict improvement). -/
def khd_updateBest (bestMatch : Option ScoredResult) (searchResults : List SearchResult)
    (title : String) (year : Option Int) : Option ScoredResult :=
  if searchResults.length > 0 then
    match khd_findBestMatch searchResults title year with
    | some m =>
      match bestMatch with
      | none => some m
      | some b => if b.score < m.score then some m else some b
    | none => bestMatch
  else bestMatch

/-- The whole query loop of `khd_getStreamsInternal`: the alternative queries
are processed in their declared order, each contributing its search results
(the settled outcome for that query). -/
def khd_selectBestAcrossQueries (queryResults : List (List SearchResult))
    (title : String) (year : Option Int) : Option ScoredResult :=
  queryResults.foldl (fun best rs => khd_updateBest best rs title year) none

/-! 4KHDHub redirect-chain decoder and link extraction. -/

/-- The structured record obtained from `JSON.parse` inside
`khd_getRedirectLinks`; only its field `o` is consumed (`json.o || ''`). -/
structure RedirectRecord where
  o : Option String
  deriving Repr, DecidableEq

/-- `khd_getRedirectLinks`: fetch the page body, collect the encoded
fragments by regex, decode the concatenation through three sequential base64
layers, parse the result as JSON, and base64-decode the `o` field once more.
The page fetch, the base64 decoder and the JSON parser are external
collaborators passed as parameters; `none` for any of their results models
the corresponding JS exception or parse failure.  The enclosing
`try { ... } catch { return null }` makes every failure yield `none`. -/
def khd_getRedirectLinks (fetchBody : Option String)
    (collectFragments : String → String)
    (base64decode : String → Option String)
    (parseJson : String → Option RedirectRecord) : Option String :=
  match fetchBody with
  | none => none
  | some body =>
    let combined := collectFragments body
    match base64decode combined with
    | none => none
    | some d1 =>
      match base64decode d1 with
      | none => none
      | some d2 =>
        match base64decode d2 with
        | none => none
        | some d3 =>
          match parseJson d3 with
          | none => none
          | some json =>
            match base64decode (json.o.getD "") with
            | none => none
            | some finalUrl => some (String.mk (trimJs finalUrl.data))

/-- One extracted streaming link (`{ name, title, url }`). -/
structure StreamLink where
  name : String
  title : String
  url : String
  deriving Repr, DecidableEq

/-- JS `String.prototype.includes` at character level. -/
def containsSublist (pat : List Char) : List Char → Bool
  | [] => pat.isPrefixOf []
  | c :: cs => pat.isPrefixOf (c :: cs) || containsSublist pat cs

/-- JS `link.toLowerCase().includes(pat)`. -/
def jsIncludesLower (s pat : String) : Bool :=
  containsSublist pat.data (s.data.map Char.toLower)

/-- `khd_extractStreamingLinks`: each link containing `id=` goes through the
redirect decoder first and is dropped (`null`) when decoding fails; the
host-specific extractors (`khd_processExtractorLink`, an external fetch-based
collaborator here) yield `none` for unknown hosts and a list of links
otherwise.  `results.flat().filter(Boolean)` keeps exactly the links of the
successful entries, in order. -/
def khd_extractStreamingLinks (downloadLinks : List String)
    (getRedirectLinks : String → Option String)
    (processExtractorLink : String → Option (List StreamLink)) : List StreamLink :=
  let results := downloadLinks.map (fun link =>
    if jsIncludesLower link "id=" then
      match getRedirectLinks link with
      | some resolved => processExtractorLink resolved
      | none => none
    else processExtractorLink link)
  (results.map (fun r => r.getD [])).flatten

/-! Helper lemmas about the stable descending sort. -/

/-- First element attaining the maximal score of a list (earlier elements
win ties).  This is the specification that the head of the stable
descending sort is proved to satisfy. -/
def firstMaxScored : List ScoredResult → Option ScoredResult
  | [] => none
  | x :: xs =>
    match firstMaxScored xs with
    | none => some x
    | some m => if x.score < m.score then some m else some x

theorem firstMaxScored_eq_none_iff (l : List ScoredResult) :
    firstMaxScored l = none ↔ l = [] := by
  cases l with
  | nil => simp [firstMaxScored]
  | cons x xs =>
    rw [firstMaxScored]
    cases ha : firstMaxScored xs with
    | none => simp
    | some m =>
      simp only []
      split <;> simp

theorem firstMaxScored_score_le (l : List ScoredResult) (m : ScoredResult)
    (hm : firstMaxScored l = some m) : ∀ x ∈ l, x.score ≤ m.score := by
  induction l generalizing m with
  | nil => simp [firstMaxScored] at hm
  | cons a as ih =>
    rw [firstMaxScored] at hm
    cases ha : firstMaxScored as with
    | none =>
      rw [ha] at hm
      simp only [Option.some.injEq] at hm
      subst hm
      intro x hx
      rcases List.mem_cons.mp hx with h | h
      · subst h; exact le_refl _
      · rw [firstMaxScored_eq_none_iff] at ha
        subst ha; simp at h
    | some m' =>
      rw [ha] at hm
      simp only [] at hm
      by_cases hcmp : a.score < m'.score
      · rw [if_pos hcmp] at hm
        simp only [Option.some.injEq] at hm
        subst hm
        intro x hx
        rcases List.mem_cons.mp hx with h | h
        · subst h; exact le_of_lt hcmp
        · exact ih _ ha x h
      · rw [if_neg hcmp] at hm
        simp only [Option.some.injEq] at hm
        subst hm
        intro x hx
        rcases List.mem_cons.mp hx with h | h
        · subst h; exact le_refl _
        · exact le_trans (ih _ ha x h) (not_lt.mp hcmp)

theorem firstMaxScored_mem (l : List ScoredResult) (m : ScoredResult)
    (hm : firstMaxScored l = some m) : m ∈ l := by
  induction l generalizing m with
  | nil => simp [firstMaxScored] at hm
  | cons a as ih =>
    rw [firstMaxScored] at hm
    cases ha : firstMaxScored as with
    | none =>
      rw [ha] at hm
      simp only [Option.some.injEq] at hm
      subst hm
      exact List.mem_cons_self a as
    | some m' =>
      rw [ha] at hm
      simp only [] at hm
      by_cases hcmp : a.score < m'.score
      · rw [if_pos hcmp] at hm
        simp only [Option.some.injEq] at hm
        subst hm
        exact List.mem_cons_of_mem a (ih _ ha)
      · rw [if_neg hcmp] at hm
        simp only [Option.some.injEq] at hm
        subst hm
        exact List.mem_cons_self a as

theorem firstMaxScored_first (l : List ScoredResult) (m : ScoredResult)
    (hm : firstMaxScored l = some m) :
    ∃ l1 l2, l = l1 ++ m :: l2 ∧ (∀ x ∈ l1, x.score < m.score) ∧
      (∀ x ∈ l2, x.score ≤ m.score) := by
  induction l generalizing m with
  | nil => simp [firstMaxScored] at hm
  | cons a as ih =>
    rw [firstMaxScored] at hm
    cases ha : firstMaxScored as with
    | none =>
      rw [ha] at hm
      simp only [Option.some.injEq] at hm
      subst hm
      rw [firstMaxScored_eq_none_iff] at ha
      subst ha
      exact ⟨[], [], rfl, by simp, by simp⟩
    | some m' =>
      rw [ha] at hm
      simp only [] at hm
      by_cases hcmp : a.score < m'.score
      · rw [if_pos hcmp] at hm
        simp only [Option.some.injEq] at hm
        subst hm
        obtain ⟨l1, l2, heq, hlt, hle⟩ := ih _ ha
        refine ⟨a :: l1, l2, by rw [heq]; rfl, ?_, hle⟩
        intro x hx
        rcases List.mem_cons.mp hx with h | h
        · subst h; exact hcmp
        · exact hlt x h
      · rw [if_neg hcmp] at hm
        simp only [Option.some.injEq] at hm
        subst hm
        refine ⟨[], as, rfl, by simp, ?_⟩
        intro x hx
        exact le_trans (firstMaxScored_score_le as m' ha x hx) (not_lt.mp hcmp)

theorem sortByScoreDesc_head?_eq (l : List ScoredResult) :
    (sortByScoreDesc l).head? = firstMaxScored l := by
  induction l with
  | nil => rfl
  | cons x xs ih =>
    rw [sortByScoreDesc, firstMaxScored]
    cases hs : sortByScoreDesc xs with
    | nil =>
      rw [hs] at ih
      simp only [List.head?] at ih
      rw [← ih]
      simp [insertDesc]
    | cons y ys =>
      rw [hs] at ih
      simp only [List.head?] at ih
      rw [← ih]
      by_cases hxy : y.score ≤ x.score
      · simp [insertDesc, hxy, not_lt.mpr hxy]
      · simp [insertDesc, hxy, lt_of_not_le hxy]

/-! Helper lemmas about the cache store. -/

theorem cacheLookup_cachePut_self (streams : List CacheEntry) (item : CacheEntry) :
    cacheLookup (cachePut streams item) item.id = some item := by
  induction streams with
  | nil =>
    simp [cachePut, cacheLookup]
  | cons e rest ih =>
    rw [cachePut, List.findIdx?_cons]
    by_cases pe : (e.id == item.id) = true
    · rw [if_pos pe]
      simp only [List.set_cons_zero]
      rw [cacheLookup]
      rw [List.find?_cons_of_pos _ (by simp)]
    · have pf : (e.id == item.id) = false := by simpa using pe
      rw [if_neg pe, List.findIdx?_succ]
      cases hi : rest.findIdx? (fun it => it.id == item.id) with
      | none =>
        rw [cachePut, hi] at ih
        simp only [] at ih
        simp only [Option.map_none', List.cons_append]
        rw [cacheLookup] at ih ⊢
        simp only [List.find?, pf]
        exact ih
      | some i =>
        rw [cachePut, hi] at ih
        simp only [] at ih
        simp only [Option.map_some', List.set_cons_succ]
        rw [cacheLookup] at ih ⊢
        simp only [List.find?, pf]
        exact ih

theorem mem_cachePut (streams : List CacheEntry) (item e : CacheEntry)
    (he : e ∈ cachePut streams item) : e ∈ streams ∨ e = item := by
  rw [cachePut] at he
  cases hi : streams.findIdx? (fun it => it.id == item.id) with
  | none =>
    rw [hi] at he
    simp only [] at he
    rcases List.mem_append.mp he with h | h
    · exact Or.inl h
    · exact Or.inr (List.mem_singleton.mp h)
  | some i =>
    rw [hi] at he
    simp only [] at he
    exact List.mem_or_eq_of_mem_set he

/-- A concrete response record used in witness statements. -/
def sampleResp : APIResponse := { name := "s", title := "t" }

/-- A second concrete response record used in witness statements. -/
def sampleResp2 : APIResponse := { name := "f", title := "g" }

/-! Claim theorems: orchestration and caching. -/

/-- C1.  On a cache miss with two configured provider resolvers, if one
resolver's promise rejects with an uncaught error and the other fulfills
with a list of streams, the `Promise.allSettled` merge in `scrapeAllContent`
returns exactly those streams (in either order of failure), and being a
total function it lets no exception escape. -/
theorem scrapeAllContent_isolatesFailure (streams : List APIResponse) (err : String) :
    scrapeAllContent (Except.ok streams) (Except.error err) = streams ∧
    scrapeAllContent (Except.error err) (Except.ok streams) = streams := by
  constructor <;> simp [scrapeAllContent]

/-- C2.  `getStreamContent` is a total function returning a (possibly
empty) list, and when both provider resolvers fail and no valid cache entry
exists, the failure degrades to the empty list with the store left
unchanged. -/
theorem getStreamContent_degradesToEmpty (id type : String) (now : Int)
    (e1 e2 : String) (streams : List CacheEntry)
    (hmiss : ∀ item ∈ streams, item.id = cacheKey type id → item.expiry ≤ now) :
    (getStreamContent id type now (Except.error e1) (Except.error e2) streams).1 = [] ∧
    (getStreamContent id type now (Except.error e1) (Except.error e2) streams).2 = streams := by
  have hscrape : scrapeAllContent (Except.error e1) (Except.error e2) = ([] : List APIResponse) :=
    rfl
  cases hl : cacheLookup streams (cacheKey type id) with
  | none =>
    simp only [getStreamContent, hl]
    simp [resolveAndCache, hscrape]
  | some item =>
    have hl' : streams.find? (fun it => it.id == cacheKey type id) = some item := hl
    have hmem : item ∈ streams := List.mem_of_find?_eq_some hl'
    have hpred := List.find?_some hl'
    have hexp : item.expiry ≤ now := hmiss item hmem (eq_of_beq hpred)
    simp only [getStreamContent, hl]
    rw [if_neg (not_lt.mpr hexp)]
    simp [resolveAndCache, hscrape]

theorem getStreamContent_degradesToEmpty_witness :
    (∀ item ∈ ([] : List CacheEntry), item.id = cacheKey "movie" "tt0000001" →
      item.expiry ≤ 0) ∧
    (getStreamContent "tt0000001" "movie" 0 (Except.error "provider A failed")
      (Except.error "provider B failed") []).1 = [] :=
  ⟨by simp, (getStreamContent_degradesToEmpty "tt0000001" "movie" 0 "provider A failed"
    "provider B failed" [] (by simp)).1⟩

/-- C6.  Cache round-trip law: a `put` of a non-empty payload followed
immediately by a `get` strictly before the stored expiry instant returns
exactly the stored payload, whatever the prior store contents. -/
theorem cache_put_get_roundTrip (streams : List CacheEntry) (key : String)
    (payload : List APIResponse) (expiry now : Int)
    (_hpay : payload ≠ []) (hnow : now < expiry) :
    cacheGet (cachePut streams { id := key, data := payload, expiry := expiry }) key now =
      some payload := by
  have h : cacheLookup (cachePut streams { id := key, data := payload, expiry := expiry })
      key = some { id := key, data := payload, expiry := expiry } :=
    cacheLookup_cachePut_self streams { id := key, data := payload, expiry := expiry }
  rw [cacheGet, h]
  simp [hnow]

theorem cache_put_get_roundTrip_witness :
    ([sampleResp] : List APIResponse) ≠ [] ∧ (3 : Int) < 5 ∧
    cacheGet (cachePut []
        { id := "movie:tt0000001", data := [sampleResp], expiry := 5 })
      "movie:tt0000001" 3 = some [sampleResp] :=
  ⟨by simp, by decide,
    cache_put_get_roundTrip [] "movie:tt0000001" [sampleResp] 5 3
      (by simp) (by decide)⟩

/-- C7.  A `get` at or after the stored expiry instant is a miss: the stored
payload is not returned, and `getStreamContent` triggers a fresh resolution,
returning the freshly scraped result instead of the stored one. -/
theorem cache_expiredEntry_miss (streams : List CacheEntry) (id type : String) (now : Int)
    (vid khd : Except String (List APIResponse)) (item : CacheEntry)
    (hfind : cacheLookup streams (cacheKey type id) = some item)
    (hexp : item.expiry ≤ now) :
    cacheGet streams (cacheKey type id) now = none ∧
    (getStreamContent id type now vid khd streams).1 = scrapeAllContent vid khd := by
  constructor
  · rw [cacheGet, hfind]
    simp [not_lt.mpr hexp]
  · simp only [getStreamContent, hfind]
    rw [if_neg (not_lt.mpr hexp)]
    simp only [resolveAndCache]
    split <;> rfl

theorem cache_expiredEntry_miss_witness :
    cacheLookup [{ id := "movie:tt0000001", data := [sampleResp], expiry := 2 }]
        (cacheKey "movie" "tt0000001") =
      some { id := "movie:tt0000001", data := [sampleResp], expiry := 2 } ∧
    (2 : Int) ≤ 5 ∧
    cacheGet [{ id := "movie:tt0000001", data := [sampleResp], expiry := 2 }]
      (cacheKey "movie" "tt0000001") 5 = none ∧
    (getStreamContent "tt0000001" "movie" 5 (Except.ok [sampleResp2]) (Except.error "x")
        [{ id := "movie:tt0000001", data := [sampleResp], expiry := 2 }]).1 =
      scrapeAllContent (Except.ok [sampleResp2]) (Except.error "x") :=
  ⟨rfl, by decide,
    (cache_expiredEntry_miss [{ id := "movie:tt0000001", data := [sampleResp], expiry := 2 }]
      "tt0000001" "movie" 5 (Except.ok [sampleResp2]) (Except.error "x")
      { id := "movie:tt0000001", data := [sampleResp], expiry := 2 } rfl (by decide)).1,
    (cache_expiredEntry_miss [{ id := "movie:tt0000001", data := [sampleResp], expiry := 2 }]
      "tt0000001" "movie" 5 (Except.ok [sampleResp2]) (Except.error "x")
      { id := "movie:tt0000001", data := [sampleResp], expiry := 2 } rfl (by decide)).2⟩

/-- Both conclusions of the non-empty-write invariant hold for the
cache-miss path `resolveAndCache` itself. -/
theorem resolveAndCache_preserves_nonEmpty (key : String) (now : Int)
    (vid khd : Except String (List APIResponse)) (streams : List CacheEntry)
    (hinv : ∀ e ∈ streams, e.data ≠ []) :
    (∀ e ∈ (resolveAndCache key now vid khd streams).2, e.data ≠ []) ∧
    (scrapeAllContent vid khd = [] → (resolveAndCache key now vid khd streams).2 = streams) := by
  simp only [resolveAndCache]
  by_cases hlen : (scrapeAllContent vid khd).length > 0
  · rw [if_pos hlen]
    constructor
    · intro e he
      rcases mem_cachePut _ _ _ he with h | h
      · exact hinv e h
      · rw [h]
        exact List.ne_nil_of_length_pos hlen
    · intro hempty
      rw [hempty] at hlen
      simp at hlen
  · rw [if_neg hlen]
    exact ⟨hinv, fun _ => rfl⟩

/-- C8.  The store never acquires an entry with an empty payload: a write
happens only when the freshly computed result list is non-empty, so an empty
resolution leaves the stored state unchanged, and stores whose entries all
have non-empty payloads keep that invariant across any `getStreamContent`
step. -/
theorem cache_noEmptyPayloadWrite (id type : String) (now : Int)
    (vid khd : Except String (List APIResponse)) (streams : List CacheEntry)
    (hinv : ∀ e ∈ streams, e.data ≠ []) :
    (∀ e ∈ (getStreamContent id type now vid khd streams).2, e.data ≠ []) ∧
    (scrapeAllContent vid khd = [] → (getStreamContent id type now vid khd streams).2 = streams) := by
  cases hl : cacheLookup streams (cacheKey type id) with
  | none =>
    simp only [getStreamContent, hl]
    exact resolveAndCache_preserves_nonEmpty _ now vid khd streams hinv
  | some item =>
    simp only [getStreamContent, hl]
    by_cases hex : item.expiry > now
    · rw [if_pos hex]
      exact ⟨hinv, fun _ => rfl⟩
    · rw [if_neg hex]
      exact resolveAndCache_preserves_nonEmpty _ now vid khd streams hinv

theorem cache_noEmptyPayloadWrite_witness :
    (∀ e ∈ ([] : List CacheEntry), e.data ≠ []) ∧
    (∀ e ∈ (getStreamContent "tt0000001" "movie" 0 (Except.error "a")
        (Except.error "b") []).2, e.data ≠ []) ∧
    (scrapeAllContent (Except.error "a") (Except.error "b") = [] →
      (getStreamContent "tt0000001" "movie" 0 (Except.error "a")
        (Except.error "b") []).2 = []) :=
  ⟨by simp,
    (cache_noEmptyPayloadWrite "tt0000001" "movie" 0 (Except.error "a")
      (Except.error "b") [] (by simp)).1,
    (cache_noEmptyPayloadWrite "tt0000001" "movie" 0 (Except.error "a")
      (Except.error "b") [] (by simp)).2⟩

/-! Helper lemmas about the fuzzy matcher. -/

theorem splitOnSpaceAux_ne_nil (cs : List Char) (acc : List Char) :
    splitOnSpaceAux acc cs ≠ [] := by
  induction cs generalizing acc with
  | nil => simp [splitOnSpaceAux]
  | cons c cs ih =>
    rw [splitOnSpaceAux]
    by_cases hc : c = ' '
    · rw [if_pos hc]
      simp
    · rw [if_neg hc]
      exact ih _

theorem jsSplitSpace_ne_nil (s : String) : jsSplitSpace s ≠ [] := by
  rw [jsSplitSpace]
  intro h
  exact splitOnSpaceAux_ne_nil s.data [] (List.map_eq_nil_iff.mp h)

/-- The Jaccard similarity of any string with itself is 1 (in particular the
`union.size === 0` guard never fires, because a JS `split` always returns at
least one element). -/
theorem khd_calculateSimilarity_self (s : String) : khd_calculateSimilarity s s = 1 := by
  simp only [khd_calculateSimilarity]
  set W := (jsSplitSpace (khd_normalizeTitle s)).dedup with hW
  have hnd : W.Nodup := List.nodup_dedup _
  have hfilter : W.filter (fun w => W.contains w) = W := by
    apply List.filter_eq_self.mpr
    intro a ha
    exact List.elem_eq_true_of_mem ha
  have hlen : ((W ++ W).dedup).length = W.length := by
    have h1 : ((W ++ W).dedup).toFinset = W.toFinset := by
      ext a
      simp [List.mem_dedup, List.mem_append]
    calc ((W ++ W).dedup).length
        = ((W ++ W).dedup).toFinset.card :=
          (List.toFinset_card_of_nodup (List.nodup_dedup _)).symm
      _ = W.toFinset.card := by rw [h1]
      _ = W.length := List.toFinset_card_of_nodup hnd
  have hne : W.length ≠ 0 := by
    intro h0
    exact jsSplitSpace_ne_nil (khd_normalizeTitle s)
      ((List.dedup_eq_nil _).mp (List.length_eq_zero.mp h0))
  rw [hlen, hfilter, if_neg hne]
  exact div_self (by exact_mod_cast hne)

/-- Unfolding of `khd_findBestMatch` through the head of the stable sort:
the accepted candidate is the first-seen maximal-score candidate, subject to
the threshold. -/
theorem khd_findBestMatch_eq (results : List SearchResult) (query : String)
    (tmdbYear : Option Int) :
    khd_findBestMatch results query tmdbYear =
      match firstMaxScored
          (results.map (khd_scoreResult (khd_stripYearAndTrim query) tmdbYear)) with
      | some bestResult => if bestResult.score > 40 then some bestResult else none
      | none => none := by
  simp only [khd_findBestMatch, sortByScoreDesc_head?_eq]

/-! Claim theorems: fuzzy matcher. -/

/-- C3.  `khd_findBestMatch` returns absent if and only if every candidate's
adjusted score is at most the threshold 40 (vacuously for an empty candidate
list). -/
theorem khd_findBestMatch_none_iff (results : List SearchResult) (query : String)
    (tmdbYear : Option Int) :
    khd_findBestMatch results query tmdbYear = none ↔
      ∀ r ∈ results,
        (khd_scoreResult (khd_stripYearAndTrim query) tmdbYear r).score ≤ 40 := by
  cases hm : firstMaxScored
      (results.map (khd_scoreResult (khd_stripYearAndTrim query) tmdbYear)) with
  | none =>
    have hres : results = [] :=
      List.map_eq_nil_iff.mp ((firstMaxScored_eq_none_iff _).mp hm)
    subst hres
    simp [khd_findBestMatch, sortByScoreDesc]
  | some m =>
    rw [khd_findBestMatch_eq, hm]
    simp only []
    have hmem := firstMaxScored_mem _ _ hm
    have hle := firstMaxScored_score_le _ _ hm
    constructor
    · intro hnone r hr
      by_cases h40 : m.score > 40
      · rw [if_pos h40] at hnone
        exact absurd hnone (by simp)
      · exact le_trans (hle _ (List.mem_map_of_mem _ hr)) (not_lt.mp h40)
    · intro hall
      have hm40 : m.score ≤ 40 := by
        rcases List.mem_map.mp hmem with ⟨r, hr, hfr⟩
        rw [← hfr]
        exact hall r hr
      rw [if_neg (not_lt.mpr hm40)]

theorem khd_findBestMatch_none_iff_witness :
    khd_findBestMatch [] "some title" none = none :=
  (khd_findBestMatch_none_iff [] "some title" none).mpr (by simp)

/-- A concrete search result used in witness statements. -/
def sampleSearchResult : SearchResult := { title := "t", url := "u", year := some 2021 }

/-- C4.  When both the target year and the candidate year are known, the
adjusted score is the 0–100-scaled Jaccard similarity of the year-stripped
titles plus 30 on exact year match and minus 50 on mismatch; consequently
the year-mismatch score is strictly lower than the year-match score for the
same candidate, all else equal. -/
theorem khd_scoreResult_yearAdjustment (qs : String) (qy ry : Int) (r : SearchResult)
    (hr : r.year = some ry) :
    (khd_scoreResult qs (some qy) r).score =
      khd_calculateSimilarity (khd_stripYearAndTrim r.title) qs * 100 +
        (if qy = ry then 30 else -50) ∧
    (qy ≠ ry → (khd_scoreResult qs (some qy) r).score <
      (khd_scoreResult qs (some ry) r).score) := by
  simp only [khd_scoreResult, hr]
  constructor
  · by_cases h : qy = ry
    · rw [if_pos h, if_pos h]
    · rw [if_neg h, if_neg h]
      ring
  · intro hne
    rw [if_neg hne]
    simp only [if_true]
    linarith [khd_calculateSimilarity (khd_stripYearAndTrim r.title) qs * 100]

theorem khd_scoreResult_yearAdjustment_witness :
    sampleSearchResult.year = some 2021 ∧
    (khd_scoreResult "x" (some 2020) sampleSearchResult).score =
      khd_calculateSimilarity (khd_stripYearAndTrim sampleSearchResult.title) "x" * 100 +
        (if (2020 : Int) = 2021 then 30 else -50) ∧
    ((2020 : Int) ≠ 2021 → (khd_scoreResult "x" (some 2020) sampleSearchResult).score <
      (khd_scoreResult "x" (some 2021) sampleSearchResult).score) :=
  ⟨rfl, (khd_scoreResult_yearAdjustment "x" 2020 2021 sampleSearchResult rfl).1,
    (khd_scoreResult_yearAdjustment "x" 2020 2021 sampleSearchResult rfl).2⟩

/-- `khd_findBestMatch` on a single candidate reduces to the threshold
check on that candidate's score. -/
theorem khd_findBestMatch_singleton (r : SearchResult) (query : String)
    (tmdbYear : Option Int) :
    khd_findBestMatch [r] query tmdbYear =
      (if (khd_scoreResult (khd_stripYearAndTrim query) tmdbYear r).score > 40
       then some (khd_scoreResult (khd_stripYearAndTrim query) tmdbYear r) else none) := by
  rw [khd_findBestMatch_eq]
  simp [firstMaxScored]

/-- C5.  Tie-breaking is first-seen: (i) within one query's result list,
`khd_findBestMatch` returns the candidate at the first position attaining
the maximal adjusted score (strictly greater than everything before it,
at least everything after it); (ii) across the alternative queries, a later
query's best match with a score equal to the retained one never replaces it,
because `khd_updateBest` requires a strict improvement. -/
theorem khd_firstSeenTieBreak :
    (∀ (results : List SearchResult) (query : String) (tmdbYear : Option Int)
        (m : ScoredResult),
        khd_findBestMatch results query tmdbYear = some m →
        ∃ l1 l2,
          results.map (khd_scoreResult (khd_stripYearAndTrim query) tmdbYear) =
            l1 ++ m :: l2 ∧
          (∀ x ∈ l1, x.score < m.score) ∧ (∀ x ∈ l2, x.score ≤ m.score)) ∧
    (∀ (searchResults : List SearchResult) (title : String) (year : Option Int)
        (b m : ScoredResult),
        khd_findBestMatch searchResults title year = some m → m.score = b.score →
        khd_updateBest (some b) searchResults title year = some b) := by
  constructor
  · intro results query tmdbYear m hm
    rw [khd_findBestMatch_eq] at hm
    cases hfm : firstMaxScored
        (results.map (khd_scoreResult (khd_stripYearAndTrim query) tmdbYear)) with
    | none =>
      rw [hfm] at hm
      simp at hm
    | some b' =>
      rw [hfm] at hm
      simp only [] at hm
      by_cases h40 : b'.score > 40
      · rw [if_pos h40] at hm
        simp only [Option.some.injEq] at hm
        subst hm
        exact firstMaxScored_first _ _ hfm
      · rw [if_neg h40] at hm
        exact absurd hm (by simp)
  · intro searchResults title year b m hm hscore
    cases searchResults with
    | nil =>
      rw [khd_findBestMatch_eq] at hm
      simp [firstMaxScored] at hm
    | cons s ss =>
      rw [khd_updateBest]
      rw [if_pos (by simp)]
      rw [hm]
      simp only []
      rw [if_neg (by rw [hscore]; exact lt_irrefl _)]

/-- A concrete candidate for the tie-break witness. -/
def tieBreakCandidate : SearchResult := { title := "x", url := "u", year := none }

/-- A previously retained match with the same score (100) as the witness
candidate's computed score. -/
def tieBreakEarlier : ScoredResult := { title := "y", url := "v", year := none, score := 100 }

theorem khd_firstSeenTieBreak_witness :
    khd_findBestMatch [tieBreakCandidate] "x" none =
      some { title := "x", url := "u", year := none, score := 100 } ∧
    khd_updateBest (some tieBreakEarlier) [tieBreakCandidate] "x" none =
      some tieBreakEarlier := by
  have hbase : khd_calculateSimilarity (khd_stripYearAndTrim "x")
      (khd_stripYearAndTrim "x") * 100 = (100 : ℚ) := by
    rw [show khd_stripYearAndTrim "x" = "x" from rfl, khd_calculateSimilarity_self]
    norm_num
  have hs : khd_scoreResult (khd_stripYearAndTrim "x") none tieBreakCandidate =
      { title := "x", url := "u", year := none, score := 100 } := by
    simp only [khd_scoreResult, tieBreakCandidate]
    rw [hbase]
  have h1 : khd_findBestMatch [tieBreakCandidate] "x" none =
      some { title := "x", url := "u", year := none, score := 100 } := by
    rw [khd_findBestMatch_singleton, hs]
    rw [if_pos (by norm_num)]
  exact ⟨h1, khd_firstSeenTieBreak.2 [tieBreakCandidate] "x" none tieBreakEarlier
    { title := "x", url := "u", year := none, score := 100 } h1 rfl⟩

/-! Claim theorems: redirect decoder and similarity bounds. -/

/-- C9.  The redirect-chain decoder returns `none` (never an exception) when
the payload is malformed at any layer: the page fetch, the first, second or
third base64 layer, the JSON parse, or the final decode of the `o` field.
Moreover, the enclosing link extractor silently omits a link whose decode
failed: the output over a list containing such a link equals the
concatenation of the outputs over the surrounding links. -/
theorem khd_redirectDecode_faultTolerant :
    (∀ (collect : String → String) (b64 : String → Option String)
        (pj : String → Option RedirectRecord),
        khd_getRedirectLinks none collect b64 pj = none) ∧
    (∀ (body : String) (collect : String → String) (b64 : String → Option String)
        (pj : String → Option RedirectRecord),
        b64 (collect body) = none →
        khd_getRedirectLinks (some body) collect b64 pj = none) ∧
    (∀ (body d1 : String) (collect : String → String) (b64 : String → Option String)
        (pj : String → Option RedirectRecord),
        b64 (collect body) = some d1 → b64 d1 = none →
        khd_getRedirectLinks (some body) collect b64 pj = none) ∧
    (∀ (body d1 d2 : String) (collect : String → String) (b64 : String → Option String)
        (pj : String → Option RedirectRecord),
        b64 (collect body) = some d1 → b64 d1 = some d2 → b64 d2 = none →
        khd_getRedirectLinks (some body) collect b64 pj = none) ∧
    (∀ (body d1 d2 d3 : String) (collect : String → String) (b64 : String → Option String)
        (pj : String → Option RedirectRecord),
        b64 (collect body) = some d1 → b64 d1 = some d2 → b64 d2 = some d3 →
        pj d3 = none →
        khd_getRedirectLinks (some body) collect b64 pj = none) ∧
    (∀ (body d1 d2 d3 : String) (json : RedirectRecord) (collect : String → String)
        (b64 : String → Option String) (pj : String → Option RedirectRecord),
        b64 (collect body) = some d1 → b64 d1 = some d2 → b64 d2 = some d3 →
        pj d3 = some json → b64 (json.o.getD "") = none →
        khd_getRedirectLinks (some body) collect b64 pj = none) ∧
    (∀ (links1 links2 : List String) (link : String)
        (redirect : String → Option String)
        (process : String → Option (List StreamLink)),
        jsIncludesLower link "id=" = true → redirect link = none →
        khd_extractStreamingLinks (links1 ++ link :: links2) redirect process =
          khd_extractStreamingLinks links1 redirect process ++
            khd_extractStreamingLinks links2 redirect process) := by
  refine ⟨?_, ?_, ?_, ?_, ?_, ?_, ?_⟩
  · intro collect b64 pj
    rfl
  · intro body collect b64 pj h1
    simp [khd_getRedirectLinks, h1]
  · intro body d1 collect b64 pj h1 h2
    simp [khd_getRedirectLinks, h1, h2]
  · intro body d1 d2 collect b64 pj h1 h2 h3
    simp [khd_getRedirectLinks, h1, h2, h3]
  · intro body d1 d2 d3 collect b64 pj h1 h2 h3 h4
    simp [khd_getRedirectLinks, h1, h2, h3, h4]
  · intro body d1 d2 d3 json collect b64 pj h1 h2 h3 h4 h5
    simp [khd_getRedirectLinks, h1, h2, h3, h4, h5]
  · intro links1 links2 link redirect process hid hnone
    simp [khd_extractStreamingLinks, hid, hnone]

theorem khd_redirectDecode_faultTolerant_witness :
    jsIncludesLower "https://example.net/?id=Z289" "id=" = true ∧
    khd_extractStreamingLinks ([] ++ "https://example.net/?id=Z289" :: [])
        (fun _ => none) (fun l => some [{ name := "n", title := "t", url := l }]) =
      khd_extractStreamingLinks [] (fun _ => none)
          (fun l => some [{ name := "n", title := "t", url := l }]) ++
        khd_extractStreamingLinks [] (fun _ => none)
          (fun l => some [{ name := "n", title := "t", url := l }]) :=
  ⟨by decide,
    khd_redirectDecode_faultTolerant.2.2.2.2.2.2 [] [] "https://example.net/?id=Z289"
      (fun _ => none) (fun l => some [{ name := "n", title := "t", url := l }])
      (by decide) rfl⟩

/-- C10.  `khd_calculateSimilarity` is a total function whose division is
guarded by the `union.size === 0` check, and its value always lies in the
closed interval from 0 to 1. -/
theorem khd_calculateSimilarity_bounds (str1 str2 : String) :
    0 ≤ khd_calculateSimilarity str1 str2 ∧ khd_calculateSimilarity str1 str2 ≤ 1 := by
  simp only [khd_calculateSimilarity]
  set W1 := (jsSplitSpace (khd_normalizeTitle str1)).dedup with hW1
  set W2 := (jsSplitSpace (khd_normalizeTitle str2)).dedup with hW2
  by_cases h0 : ((W1 ++ W2).dedup).length = 0
  · rw [if_pos h0]
    norm_num
  · rw [if_neg h0]
    have hsub : (W1.filter (fun w => W2.contains w)) ⊆ (W1 ++ W2).dedup := by
      intro a ha
      exact (List.mem_dedup).mpr (List.mem_append_left _ (List.mem_of_mem_filter ha))
    have hnd : (W1.filter (fun w => W2.contains w)).Nodup :=
      List.Nodup.filter _ (List.nodup_dedup _)
    have hlen : (W1.filter (fun w => W2.contains w)).length ≤ ((W1 ++ W2).dedup).length :=
      List.Subperm.length_le (List.subperm_of_subset hnd hsub)
    have hposQ : (0 : ℚ) < (((W1 ++ W2).dedup).length : ℚ) := by
      exact_mod_cast Nat.pos_of_ne_zero h0
    constructor
    · exact div_nonneg (by positivity) (le_of_lt hposQ)
    · rw [div_le_one hposQ]
      exact_mod_cast hlen
